import Mathlib

/-
  Verification of the OXRS RFID reader firmware
  (sumnerboy12/OXRS-BJ-RFIDReader-ESP-FW).

  Shallow embedding conventions:
  * C `byte` values are `Nat` (with `b < 256` hypotheses where byte range
    matters); C buffers are `List Nat` / `List Char`.
  * `memset(lastUid, 0, MAX_UID_BYTES)` is `List.replicate MAX_UID_BYTES 0`;
    `memcmp(uid, lastUid, len) == 0` is `uid = lastUid.take len` (for a `uid`
    list of length `len`); `memcpy(lastUid, uid, len)` is
    `uid ++ lastUid.drop len`.
  * The C strings produced by `toHexString` / `toAsciiString` are modelled as
    the character list up to (not including) the trailing `'\0'` terminator
    the source writes at `buffer[len*2]` / `buffer[len]`.
  * Opaque driver/library calls (PN532 `tagPresent`/`read`, MFRC522
    `MIFARE_Read`, `PICC_GetType`, `PICC_GetTypeName`) are parameters of the
    embedded functions.
-/

namespace OXRSRfid

/-- MAX_UID_BYTES from the firmware source. -/
def MAX_UID_BYTES : Nat := 8

/-- One nibble to its uppercase hex character, as in the source:
    `nib < 0xA ? '0' + nib : 'A' + nib - 0xA`  ('0' = 0x30, 'A' = 0x41). -/
def nibbleChar (nib : Nat) : Char :=
  if nib < 0xA then Char.ofNat (0x30 + nib) else Char.ofNat (0x41 + nib - 0xA)

/-- `toHexString(buffer, data, len)` from the source: for each byte,
    `nib1 = (data[i] >> 4) & 0x0F` and `nib2 = (data[i] >> 0) & 0x0F` become
    two hex characters, high nibble first. -/
def toHexString : List Nat → List Char
  | [] => []
  | b :: rest =>
      nibbleChar ((b >>> 4) &&& 0x0F) :: nibbleChar ((b >>> 0) &&& 0x0F) ::
        toHexString rest

/-- `toAsciiString(buffer, data, len)` from the source: bytes `≤ 0x1F` become
    `'.'`, all other byte values pass through as their raw character value. -/
def toAsciiString : List Nat → List Char
  | [] => []
  | b :: rest =>
      (if b ≤ 0x1F then '.' else Char.ofNat b) :: toAsciiString rest

/-- Modelled from the spec: `hexDecode`, the inverse reading of a hex string
    back to bytes (the repository has no decoder; the spec's round-trip
    property `hexDecode(hexEncode(b)) == b` names it).  Each pair of hex
    characters becomes one byte, high nibble first. -/
def hexCharVal (c : Char) : Nat :=
  if c.toNat < 0x41 then c.toNat - 0x30 else c.toNat - 0x41 + 0xA

/-- Modelled from the spec: decodes consecutive pairs of hex characters. -/
def hexDecode : List Char → List Nat
  | c1 :: c2 :: rest => (hexCharVal c1 * 16 + hexCharVal c2) :: hexDecode rest
  | _ => []

/-- The character ranges '0'-'9' and 'A'-'F'. -/
def isUpperHexDigit (c : Char) : Prop :=
  (0x30 ≤ c.toNat ∧ c.toNat ≤ 0x39) ∨ (0x41 ≤ c.toNat ∧ c.toNat ≤ 0x46)

instance (c : Char) : Decidable (isUpperHexDigit c) := by
  unfold isUpperHexDigit; infer_instance

/-! ### The PN532 poll-cycle dedup state machine (`processPN532`) -/

/-- What one poll cycle observes from the reader: either `nfc.tagPresent(5)`
    returned false, or a tag was read whose reader-reported UID bytes (the
    first `tag.getUidLength()` bytes filled by `tag.getUid`) are `uid`. -/
inductive PollInput where
  | noTag
  | tag (uid : List Nat)

/-- One execution of `processPN532()` from the source, acting on the global
    `lastUid` buffer (a list of `MAX_UID_BYTES` bytes).  Returns the new
    `lastUid` contents and the UID published by `publishTag` this cycle
    (`none` when nothing is published).
    * no tag: `memset(lastUid, 0, MAX_UID_BYTES)`, no publish;
    * tag read: if `memcmp(uid, lastUid, tag.getUidLength()) == 0` nothing is
      done; otherwise `memcpy(lastUid, uid, tag.getUidLength())` and the tag
      is published. -/
def processPN532 (lastUid : List Nat) (input : PollInput) :
    List Nat × Option (List Nat) :=
  match input with
  | .noTag => (List.replicate MAX_UID_BYTES 0, none)
  | .tag uid =>
      if uid = lastUid.take uid.length then
        (lastUid, none)
      else
        (uid ++ lastUid.drop uid.length, some uid)

/-- Iterated poll cycles: final `lastUid` contents and the list of published
    UIDs, in order. -/
def runCycles (lastUid : List Nat) : List PollInput → List Nat × List (List Nat)
  | [] => (lastUid, [])
  | input :: rest =>
      let r := processPN532 lastUid input
      let rr := runCycles r.1 rest
      (rr.1, r.2.toList ++ rr.2)

/-! ### The MFRC522 variant (`readData_MIFARE_UL`, `publishCard`) -/

/-- MFRC522 tag-type classifier returned by the library's `PICC_GetType`
    (only the constructors the firmware distinguishes are modelled; the
    library enum has further members, all treated like the ones here). -/
inductive PiccType where
  | PICC_TYPE_MIFARE_UL
  | PICC_TYPE_MIFARE_1K
  | PICC_TYPE_MIFARE_4K
  | PICC_TYPE_UNKNOWN
deriving DecidableEq

/-- `MFRC522::Uid` as used by `publishCard`: the byte count `size`, the UID
    bytes `uidByte`, and the `sak` byte. -/
structure MfrcUid where
  size : Nat
  uidByte : List Nat
  sak : Nat

/-- The diagnostic `readData_MIFARE_UL` logs on a failed `MIFARE_Read` (the
    driver-supplied status-code name that follows it is opaque and elided). -/
def mifareReadFailedMsg : String := "MIFARE_Read() failed: "

/-- The inner nested loops of `readData_MIFARE_UL`: for `i, j ∈ [0,3]` the
    source executes `data[dataCount++] = buffer[4*i+j]`, so starting from
    write position `dataCount` it copies `buffer[0..15]` into
    `data[dataCount..dataCount+15]`.  The pair state is (data, dataCount). -/
def copyBlock (buffer data : List Nat) (dataCount : Nat) : List Nat × Nat :=
  (List.range 4).foldl (fun acc i =>
    (List.range 4).foldl (fun acc2 j =>
      (acc2.1.set acc2.2 (buffer.getD (4 * i + j) 0), acc2.2 + 1)) acc)
    (data, dataCount)

/-- The page loop of `readData_MIFARE_UL`
    (`for (byte page = 4; page <= 15; page += 4)`, i.e. pages 4, 8, 12):
    each successful `MIFARE_Read` (modelled by `readPage page = some buffer`,
    the driver's 18-byte buffer of 16 data + 2 CRC bytes) is copied into
    `data`; the first failure logs a diagnostic and breaks. -/
def ulPageLoop (readPage : Nat → Option (List Nat)) :
    List Nat → List Nat → Nat → List Nat × Nat × List String
  | [], data, dataCount => (data, dataCount, [])
  | page :: rest, data, dataCount =>
      match readPage page with
      | none => (data, dataCount, [mifareReadFailedMsg])
      | some buffer =>
          let w := copyBlock buffer data dataCount
          ulPageLoop readPage rest w.1 w.2

/-- `readData_MIFARE_UL(data)` from the source, with the caller's 64-byte
    `data` array passed explicitly (its initial, uninitialised stack contents
    are arbitrary).  Returns the final array contents, the returned
    `dataCount`, and the logged diagnostics. -/
def readData_MIFARE_UL (readPage : Nat → Option (List Nat))
    (data : List Nat) : List Nat × Nat × List String :=
  ulPageLoop readPage [4, 8, 12] data 0

/-- Values of the JSON document built by `publishCard`. -/
inductive JVal where
  | str (s : List Char)
  | num (n : Nat)
deriving DecidableEq

/-- `publishCard(uid)` from the source.  `getType` stands for the library's
    `PICC_GetType(uid.sak)` and `getTypeName` for `PICC_GetTypeName(type)`;
    `stack` is the uninitialised 64-byte `data` array.  Only
    `PICC_TYPE_MIFARE_UL` triggers the extra data read; the JSON document
    carries the keys in source order, and the logged diagnostics (if any)
    come from the data read.  `toHexString(buffer, uid.uidByte, uid.size)`
    and `toHexString(buffer, data, data_len)` hex-encode the respective
    leading bytes. -/
def publishCard (getType : Nat → PiccType) (getTypeName : PiccType → List Char)
    (readPage : Nat → Option (List Nat)) (stack : List Nat) (uid : MfrcUid) :
    List (String × JVal) × List String :=
  let type := getType uid.sak
  let rd := if type = PiccType.PICC_TYPE_MIFARE_UL then
              readData_MIFARE_UL readPage stack
            else
              (stack, 0, [])
  ([("sak", JVal.num uid.sak),
    ("type", JVal.str (getTypeName type)),
    ("uid", JVal.str (toHexString (uid.uidByte.take uid.size))),
    ("data", JVal.str (toHexString (rd.1.take rd.2.1)))],
   rd.2.2)

/-- The first-16-bytes blocks of the successful leading `MIFARE_Read`s over a
    page list, in order, stopping at the first failure. -/
def ulDecodedFrom (readPage : Nat → Option (List Nat)) : List Nat → List Nat
  | [] => []
  | p :: rest =>
      match readPage p with
      | none => []
      | some b => b.take 16 ++ ulDecodedFrom readPage rest

/-- The bytes `readData_MIFARE_UL` has decoded when it returns: the
    successful leading blocks of pages 4, 8, 12. -/
def ulDecodedBytes (readPage : Nat → Option (List Nat)) : List Nat :=
  ulDecodedFrom readPage [4, 8, 12]

/-- Whether one of the three block reads the source attempts fails (the
    reads after the first failing one are never attempted). -/
def ulReadFails (readPage : Nat → Option (List Nat)) : Prop :=
  readPage 4 = none ∨ readPage 8 = none ∨ readPage 12 = none

instance (readPage : Nat → Option (List Nat)) : Decidable (ulReadFails readPage) := by
  unfold ulReadFails; infer_instance

/-- `jsonConfig` from the source: if the config payload carries a
    `tagReadIntervalMs` key its value is stored (via `.as<uint32_t>()`, hence
    reduced mod 2^32) with no range check; otherwise the prior value is kept.
    The config payload is modelled as the optional value of that key. -/
def jsonConfig (tagReadIntervalMs : Nat) (json : Option Nat) : Nat :=
  match json with
  | some v => v % 2 ^ 32
  | none => tagReadIntervalMs

/-! ### Lemmas about the payload codec -/

lemma and_fifteen_lt (n : Nat) : n &&& 0x0F < 16 :=
  Nat.lt_succ_of_le (Nat.and_le_right)

lemma hexCharVal_nibbleChar : ∀ n, n < 16 → hexCharVal (nibbleChar n) = n := by
  decide

lemma isUpperHexDigit_nibbleChar : ∀ n, n < 16 → isUpperHexDigit (nibbleChar n) := by
  decide

set_option maxRecDepth 4096 in
lemma nibbles_recompose : ∀ b, b < 256 →
    ((b >>> 4) &&& 0x0F) * 16 + ((b >>> 0) &&& 0x0F) = b := by
  decide

lemma toHexString_length (data : List Nat) :
    (toHexString data).length = 2 * data.length := by
  induction data with
  | nil => rfl
  | cons b rest ih =>
      simp only [toHexString, List.length_cons, ih]
      omega

lemma toHexString_upperHex (data : List Nat) :
    ∀ c ∈ toHexString data, isUpperHexDigit c := by
  induction data with
  | nil => intro c hc; cases hc
  | cons b rest ih =>
      intro c hc
      simp only [toHexString, List.mem_cons] at hc
      rcases hc with h1 | h2 | h3
      · exact h1 ▸ isUpperHexDigit_nibbleChar _ (and_fifteen_lt _)
      · exact h2 ▸ isUpperHexDigit_nibbleChar _ (and_fifteen_lt _)
      · exact ih c h3

lemma hexDecode_toHexString (data : List Nat) (h : ∀ b ∈ data, b < 256) :
    hexDecode (toHexString data) = data := by
  induction data with
  | nil => rfl
  | cons b rest ih =>
      have hb : b < 256 := h b (List.mem_cons_self b rest)
      simp only [toHexString, hexDecode]
      rw [hexCharVal_nibbleChar _ (and_fifteen_lt _),
          hexCharVal_nibbleChar _ (and_fifteen_lt _),
          nibbles_recompose b hb,
          ih (fun x hx => h x (List.mem_cons_of_mem b hx))]

set_option maxRecDepth 4096 in
/-- Every byte below 256 is a valid character code, and the cast round-trips. -/
lemma toNat_ofNat_byte : ∀ b, b < 256 → (Char.ofNat b).toNat = b := by
  decide

lemma length_toAsciiString (data : List Nat) :
    (toAsciiString data).length = data.length := by
  induction data with
  | nil => rfl
  | cons b rest ih => simp only [toAsciiString, List.length_cons, ih]

lemma getD_toAsciiString (data : List Nat) :
    ∀ i, i < data.length →
      (toAsciiString data).getD i ' ' =
        if data.getD i 0 ≤ 0x1F then '.' else Char.ofNat (data.getD i 0) := by
  induction data with
  | nil => intro i hi; cases hi
  | cons b rest ih =>
      intro i hi
      cases i with
      | zero => rfl
      | succ j =>
          simp only [toAsciiString, List.getD_cons_succ]
          exact ih j (Nat.lt_of_succ_lt_succ hi)

/-! ### Lemmas about the MFRC522 block copy -/

/-- The effect of the nested copy loops as a single left fold: the `k`-th
    step (for `k = 4*i + j` sweeping 0..15 in order) writes `buffer[k]` at
    `data[dc + k]`. -/
def writeBytes (buffer data : List Nat) (dc n : Nat) : List Nat :=
  (List.range n).foldl (fun d k => d.set (dc + k) (buffer.getD k 0)) data

set_option maxHeartbeats 1000000 in
lemma copyBlock_eq_writeBytes (buffer data : List Nat) (dc : Nat) :
    copyBlock buffer data dc = (writeBytes buffer data dc 16, dc + 16) := by
  rfl

lemma writeBytes_succ (buffer data : List Nat) (dc n : Nat) :
    writeBytes buffer data dc (n + 1)
      = (writeBytes buffer data dc n).set (dc + n) (buffer.getD n 0) := by
  unfold writeBytes
  rw [List.range_succ, List.foldl_append]
  rfl

lemma length_writeBytes (buffer data : List Nat) (dc n : Nat) :
    (writeBytes buffer data dc n).length = data.length := by
  induction n with
  | zero => rfl
  | succ m ih => rw [writeBytes_succ, List.length_set, ih]

lemma getD_set_ne (l : List Nat) (i j v : Nat) (h : i ≠ j) :
    (l.set i v).getD j 0 = l.getD j 0 := by
  by_cases hj : j < l.length
  · rw [List.getD_eq_getElem _ _ (by rwa [List.length_set]),
        List.getD_eq_getElem _ _ hj, List.getElem_set_of_ne h]
  · rw [List.getD_eq_default _ _ (by rw [List.length_set]; omega),
        List.getD_eq_default _ _ (by omega)]

lemma getD_set_self (l : List Nat) (i v : Nat) (h : i < l.length) :
    (l.set i v).getD i 0 = v := by
  rw [List.getD_eq_getElem _ _ (by rwa [List.length_set]),
      List.getElem_set_self]

lemma getD_writeBytes_frame (buffer data : List Nat) (dc n : Nat) (i : Nat)
    (h : i < dc ∨ dc + n ≤ i) :
    (writeBytes buffer data dc n).getD i 0 = data.getD i 0 := by
  induction n with
  | zero => rfl
  | succ m ih =>
      rw [writeBytes_succ, getD_set_ne _ _ _ _ (by omega)]
      exact ih (by omega)

lemma getD_writeBytes_mid (buffer data : List Nat) (dc n k : Nat)
    (hk : k < n) (hlen : dc + n ≤ data.length) :
    (writeBytes buffer data dc n).getD (dc + k) 0 = buffer.getD k 0 := by
  induction n with
  | zero => omega
  | succ m ih =>
      rw [writeBytes_succ]
      by_cases hkm : k = m
      · subst hkm
        rw [getD_set_self _ _ _ (by rw [length_writeBytes]; omega)]
      · rw [getD_set_ne _ _ _ _ (by omega)]
        exact ih (by omega) (by omega)

lemma getD_take_of_lt (l : List Nat) (k n : Nat) (h : k < n) :
    (l.take n).getD k 0 = l.getD k 0 := by
  by_cases hk : k < l.length
  · rw [List.getD_eq_getElem _ _ (by rw [List.length_take]; omega),
        List.getD_eq_getElem _ _ hk, List.getElem_take]
  · rw [List.getD_eq_default _ _ (by rw [List.length_take]; omega),
        List.getD_eq_default _ _ (by omega)]

lemma ulPageLoop_nil (readPage : Nat → Option (List Nat)) (data : List Nat)
    (dc : Nat) : ulPageLoop readPage [] data dc = (data, dc, []) := rfl

lemma ulPageLoop_cons (readPage : Nat → Option (List Nat))
    (p : Nat) (rest : List Nat) (data : List Nat) (dc : Nat) :
    ulPageLoop readPage (p :: rest) data dc
      = match readPage p with
        | none => (data, dc, [mifareReadFailedMsg])
        | some buffer =>
            ulPageLoop readPage rest (copyBlock buffer data dc).1
              (copyBlock buffer data dc).2 := rfl

lemma ulPageLoop_cons_none (readPage : Nat → Option (List Nat))
    (p : Nat) (rest : List Nat) (data : List Nat) (dc : Nat)
    (h : readPage p = none) :
    ulPageLoop readPage (p :: rest) data dc = (data, dc, [mifareReadFailedMsg]) := by
  rw [ulPageLoop_cons, h]

lemma ulPageLoop_cons_some (readPage : Nat → Option (List Nat))
    (p : Nat) (rest : List Nat) (data : List Nat) (dc : Nat) (b : List Nat)
    (h : readPage p = some b) :
    ulPageLoop readPage (p :: rest) data dc
      = ulPageLoop readPage rest (writeBytes b data dc 16) (dc + 16) := by
  rw [ulPageLoop_cons, h]
  simp only [copyBlock_eq_writeBytes]

/-- Full characterisation of `readData_MIFARE_UL` on a 64-byte array when
    the driver fills 18-byte buffers: the returned count is the length of the
    decoded bytes, the array keeps its length, bytes at and beyond the count
    are untouched, the first count bytes are the decoded blocks, the
    diagnostic is logged exactly when a read fails, and the count is one of
    0, 16, 32, 48. -/
lemma readData_spec (readPage : Nat → Option (List Nat))
    (data out : List Nat) (count : Nat) (log : List String)
    (h64 : data.length = 64)
    (hr : ∀ p b, readPage p = some b → b.length = 18)
    (heq : readData_MIFARE_UL readPage data = (out, count, log)) :
    count = (ulDecodedBytes readPage).length ∧
    out.length = 64 ∧
    (∀ i, count ≤ i → out.getD i 0 = data.getD i 0) ∧
    (∀ k, k < count → out.getD k 0 = (ulDecodedBytes readPage).getD k 0) ∧
    log = (if ulReadFails readPage then [mifareReadFailedMsg] else []) ∧
    (count = 0 ∨ count = 16 ∨ count = 32 ∨ count = 48) := by
  rcases hfour : readPage 4 with _ | b4
  · rw [readData_MIFARE_UL, ulPageLoop_cons_none _ _ _ _ _ hfour,
        Prod.mk.injEq, Prod.mk.injEq] at heq
    obtain ⟨h1, h2, h3⟩ := heq
    subst h1; subst h2; subst h3
    have hdec : ulDecodedBytes readPage = [] := by
      simp only [ulDecodedBytes, ulDecodedFrom, hfour]
    have hfl : ulReadFails readPage := Or.inl hfour
    rw [hdec]
    exact ⟨rfl, h64, fun i _ => rfl, fun k hk => absurd hk (by omega),
           (if_pos hfl).symm, Or.inl rfl⟩
  · have hb4 : b4.length = 18 := hr 4 b4 hfour
    have hl4 : (b4.take 16).length = 16 := by rw [List.length_take]; omega
    rcases height : readPage 8 with _ | b8
    · have hred : readData_MIFARE_UL readPage data
          = (writeBytes b4 data 0 16, 16, [mifareReadFailedMsg]) := by
        rw [readData_MIFARE_UL, ulPageLoop_cons_some _ _ _ _ _ _ hfour,
            ulPageLoop_cons_none _ _ _ _ _ height]
      have hdec : ulDecodedBytes readPage = b4.take 16 := by
        simp only [ulDecodedBytes, ulDecodedFrom, hfour, height, List.append_nil]
      have hfl : ulReadFails readPage := Or.inr (Or.inl height)
      rw [hred, Prod.mk.injEq, Prod.mk.injEq] at heq
      obtain ⟨h1, h2, h3⟩ := heq
      subst h1; subst h2; subst h3
      rw [hdec]
      refine ⟨hl4.symm, by rw [length_writeBytes, h64], ?_, ?_,
              (if_pos hfl).symm, Or.inr (Or.inl rfl)⟩
      · intro i hi
        exact getD_writeBytes_frame _ _ _ _ _ (by omega)
      · intro k hk
        have hmid := getD_writeBytes_mid b4 data 0 16 k hk (by omega)
        rw [Nat.zero_add] at hmid
        rw [hmid, getD_take_of_lt _ _ _ hk]
    · have hb8 : b8.length = 18 := hr 8 b8 height
      have hl8 : (b8.take 16).length = 16 := by rw [List.length_take]; omega
      rcases htwelve : readPage 12 with _ | b12
      · have hred : readData_MIFARE_UL readPage data
            = (writeBytes b8 (writeBytes b4 data 0 16) 16 16, 32,
               [mifareReadFailedMsg]) := by
          rw [readData_MIFARE_UL, ulPageLoop_cons_some _ _ _ _ _ _ hfour,
              ulPageLoop_cons_some _ _ _ _ _ _ height,
              ulPageLoop_cons_none _ _ _ _ _ htwelve]
        have hdec : ulDecodedBytes readPage = b4.take 16 ++ b8.take 16 := by
          simp only [ulDecodedBytes, ulDecodedFrom, hfour, height, htwelve,
                     List.append_nil]
        have hfl : ulReadFails readPage := Or.inr (Or.inr htwelve)
        have hw1 : (writeBytes b4 data 0 16).length = 64 := by
          rw [length_writeBytes, h64]
        rw [hred, Prod.mk.injEq, Prod.mk.injEq] at heq
        obtain ⟨h1, h2, h3⟩ := heq
        subst h1; subst h2; subst h3
        rw [hdec]
        refine ⟨by rw [List.length_append, hl4, hl8],
                by rw [length_writeBytes, hw1], ?_, ?_,
                (if_pos hfl).symm, Or.inr (Or.inr (Or.inl rfl))⟩
        · intro i hi
          rw [getD_writeBytes_frame _ _ _ _ _ (by omega)]
          exact getD_writeBytes_frame _ _ _ _ _ (by omega)
        · intro k hk
          by_cases hk16 : k < 16
          · rw [getD_writeBytes_frame _ _ _ _ _ (by omega)]
            have hmid := getD_writeBytes_mid b4 data 0 16 k hk16 (by omega)
            rw [Nat.zero_add] at hmid
            rw [hmid, List.getD_append _ _ _ _ (by omega), getD_take_of_lt _ _ _ hk16]
          · obtain ⟨j, rfl⟩ : ∃ j, k = 16 + j := ⟨k - 16, by omega⟩
            have hj : j < 16 := by omega
            rw [getD_writeBytes_mid b8 _ 16 16 j hj (by rw [hw1]; omega),
                List.getD_append_right _ _ _ _ (by omega)]
            have h16j : 16 + j - (b4.take 16).length = j := by rw [hl4]; omega
            rw [h16j, getD_take_of_lt _ _ _ hj]
      · have hb12 : b12.length = 18 := hr 12 b12 htwelve
        have hl12 : (b12.take 16).length = 16 := by rw [List.length_take]; omega
        have hred : readData_MIFARE_UL readPage data
            = (writeBytes b12 (writeBytes b8 (writeBytes b4 data 0 16) 16 16) 32 16,
               48, []) := by
          rw [readData_MIFARE_UL, ulPageLoop_cons_some _ _ _ _ _ _ hfour,
              ulPageLoop_cons_some _ _ _ _ _ _ height,
              ulPageLoop_cons_some _ _ _ _ _ _ htwelve, ulPageLoop_nil]
        have hdec : ulDecodedBytes readPage
            = b4.take 16 ++ (b8.take 16 ++ b12.take 16) := by
          simp only [ulDecodedBytes, ulDecodedFrom, hfour, height, htwelve,
                     List.append_nil]
        have hnf : ¬ ulReadFails readPage := by
          simp only [ulReadFails, hfour, height, htwelve]
          simp
        have hw1 : (writeBytes b4 data 0 16).length = 64 := by
          rw [length_writeBytes, h64]
        have hw2 : (writeBytes b8 (writeBytes b4 data 0 16) 16 16).length = 64 := by
          rw [length_writeBytes, hw1]
        rw [hred, Prod.mk.injEq, Prod.mk.injEq] at heq
        obtain ⟨h1, h2, h3⟩ := heq
        subst h1; subst h2; subst h3
        rw [hdec]
        refine ⟨by rw [List.length_append, List.length_append, hl4, hl8, hl12],
                by rw [length_writeBytes, hw2], ?_, ?_,
                (if_neg hnf).symm, Or.inr (Or.inr (Or.inr rfl))⟩
        · intro i hi
          rw [getD_writeBytes_frame _ _ _ _ _ (by omega),
              getD_writeBytes_frame _ _ _ _ _ (by omega)]
          exact getD_writeBytes_frame _ _ _ _ _ (by omega)
        · intro k hk
          by_cases hk16 : k < 16
          · rw [getD_writeBytes_frame _ _ _ _ _ (by omega),
                getD_writeBytes_frame _ _ _ _ _ (by omega)]
            have hmid := getD_writeBytes_mid b4 data 0 16 k hk16 (by omega)
            rw [Nat.zero_add] at hmid
            rw [hmid, List.getD_append _ _ _ _ (by omega), getD_take_of_lt _ _ _ hk16]
          · by_cases hk32 : k < 32
            · obtain ⟨j, rfl⟩ : ∃ j, k = 16 + j := ⟨k - 16, by omega⟩
              have hj : j < 16 := by omega
              rw [getD_writeBytes_frame _ _ _ _ _ (by omega),
                  getD_writeBytes_mid b8 _ 16 16 j hj (by rw [hw1]; omega),
                  List.getD_append_right _ _ _ _ (by omega)]
              have h16j : 16 + j - (b4.take 16).length = j := by rw [hl4]; omega
              rw [h16j, List.getD_append _ _ _ _ (by omega),
                  getD_take_of_lt _ _ _ hj]
            · obtain ⟨j, rfl⟩ : ∃ j, k = 32 + j := ⟨k - 32, by omega⟩
              have hj : j < 16 := by omega
              rw [getD_writeBytes_mid b12 _ 32 16 j hj (by rw [hw2]; omega),
                  List.getD_append_right _ _ _ _ (by omega)]
              have h32j : 32 + j - (b4.take 16).length = 16 + j := by rw [hl4]; omega
              rw [h32j, List.getD_append_right _ _ _ _ (by omega)]
              have h16j : 16 + j - (b8.take 16).length = j := by rw [hl8]; omega
              rw [h16j, getD_take_of_lt _ _ _ hj]

/-- The first `dataCount` bytes of the array after `readData_MIFARE_UL` are
    exactly the decoded blocks. -/
lemma readData_take (readPage : Nat → Option (List Nat)) (data : List Nat)
    (h64 : data.length = 64)
    (hr : ∀ p b, readPage p = some b → b.length = 18) :
    (readData_MIFARE_UL readPage data).1.take (readData_MIFARE_UL readPage data).2.1
      = ulDecodedBytes readPage := by
  obtain ⟨hc, hlen, hframe, hcontent, hlog, hvals⟩ :=
    readData_spec readPage data (readData_MIFARE_UL readPage data).1
      (readData_MIFARE_UL readPage data).2.1
      (readData_MIFARE_UL readPage data).2.2 h64 hr rfl
  apply List.ext_getElem
  · rw [List.length_take]
    omega
  · intro k h1 h2
    rw [List.getElem_take]
    have hk : k < (readData_MIFARE_UL readPage data).2.1 := by
      rw [List.length_take] at h1
      omega
    have hval := hcontent k hk
    rw [List.getD_eq_getElem _ _ (by omega), List.getD_eq_getElem _ _ h2] at hval
    exact hval

/-! ### Claim C3 -/

/-- C3: for every byte sequence `data`, `toHexString data` has exactly
    `2 * data.length` characters (the source additionally writes a trailing
    terminator at `buffer[len*2]`), all drawn from '0'-'9' and 'A'-'F', each
    byte contributing its two uppercase hex digits high-nibble first, and
    decoding the hex string recovers `data` exactly. -/
theorem C3_toHexString (data : List Nat) (h : ∀ b ∈ data, b < 256) :
    (toHexString data).length = 2 * data.length ∧
    (∀ c ∈ toHexString data, isUpperHexDigit c) ∧
    hexDecode (toHexString data) = data :=
  ⟨toHexString_length data, toHexString_upperHex data, hexDecode_toHexString data h⟩

/-- Witness for C3 at the spec's example UID `04 A2 5C 7B`. -/
theorem C3_toHexString_witness :
    (toHexString [0x04, 0xA2, 0x5C, 0x7B]).length =
      2 * ([0x04, 0xA2, 0x5C, 0x7B] : List Nat).length ∧
    (∀ c ∈ toHexString [0x04, 0xA2, 0x5C, 0x7B], isUpperHexDigit c) ∧
    hexDecode (toHexString [0x04, 0xA2, 0x5C, 0x7B]) = [0x04, 0xA2, 0x5C, 0x7B] :=
  C3_toHexString [0x04, 0xA2, 0x5C, 0x7B] (by decide)

/-! ### Claim C4 -/

/-- C4, counterexample: the claim's "if and only if" fails at the byte 0x2E
    (the code of '.'): `toAsciiString [0x2E]` puts '.' at index 0 although
    `0x2E ≤ 0x1F` is false. -/
theorem C4_counterexample :
    (toAsciiString [0x2E]).getD 0 ' ' = '.' ∧ ¬ ((0x2E : Nat) ≤ 0x1F) := by
  decide

/-- C4, amended: for every byte sequence and index within it, the output
    character is '.' if the byte is `≤ 0x1F` and otherwise is the character
    with the byte's code (bytes ≥ 0x80 pass through unchanged); hence the
    output character is '.' iff the byte is `≤ 0x1F` or is 0x2E, the code of
    '.' itself.  The output length equals the input length (the source
    additionally writes a terminator at `buffer[len]`). -/
theorem C4_toAsciiString (data : List Nat) (h : ∀ b ∈ data, b < 256) :
    (toAsciiString data).length = data.length ∧
    (∀ i, i < data.length →
      (toAsciiString data).getD i ' ' =
        if data.getD i 0 ≤ 0x1F then '.' else Char.ofNat (data.getD i 0)) ∧
    (∀ i, i < data.length →
      ((toAsciiString data).getD i ' ' = '.' ↔
        data.getD i 0 ≤ 0x1F ∨ data.getD i 0 = 0x2E)) := by
  refine ⟨length_toAsciiString data, getD_toAsciiString data, ?_⟩
  intro i hi
  have hb : data.getD i 0 < 256 := by
    have hmem : data.getD i 0 ∈ data := by
      rw [List.getD_eq_getElem data 0 hi]
      exact List.getElem_mem hi
    exact h _ hmem
  rw [getD_toAsciiString data i hi]
  by_cases hle : data.getD i 0 ≤ 0x1F
  · rw [if_pos hle]
    exact ⟨fun _ => Or.inl hle, fun _ => rfl⟩
  · rw [if_neg hle]
    constructor
    · intro heq
      right
      have hback := toNat_ofNat_byte _ hb
      rw [heq] at hback
      have h46 : ('.').toNat = 46 := rfl
      omega
    · intro hor
      rcases hor with hle2 | heq2
      · exact absurd hle2 hle
      · rw [heq2]

/-- Witness for C4 at a control byte and a printable byte. -/
theorem C4_toAsciiString_witness :
    (toAsciiString [0x00, 0x41]).length = ([0x00, 0x41] : List Nat).length ∧
    (∀ i, i < ([0x00, 0x41] : List Nat).length →
      (toAsciiString [0x00, 0x41]).getD i ' ' =
        if ([0x00, 0x41] : List Nat).getD i 0 ≤ 0x1F then '.'
        else Char.ofNat (([0x00, 0x41] : List Nat).getD i 0)) ∧
    (∀ i, i < ([0x00, 0x41] : List Nat).length →
      ((toAsciiString [0x00, 0x41]).getD i ' ' = '.' ↔
        ([0x00, 0x41] : List Nat).getD i 0 ≤ 0x1F ∨
          ([0x00, 0x41] : List Nat).getD i 0 = 0x2E)) :=
  C4_toAsciiString [0x00, 0x41] (by decide)

/-! ### Lemmas about the dedup state machine -/

lemma processPN532_noTag (s : List Nat) :
    processPN532 s PollInput.noTag = (List.replicate MAX_UID_BYTES 0, none) := rfl

lemma processPN532_tag_same (s uid : List Nat) (h : uid = s.take uid.length) :
    processPN532 s (PollInput.tag uid) = (s, none) := by
  simp only [processPN532, if_pos h]

lemma processPN532_tag_new (s uid : List Nat) (h : uid ≠ s.take uid.length) :
    processPN532 s (PollInput.tag uid) = (uid ++ s.drop uid.length, some uid) := by
  simp only [processPN532, if_neg h]

lemma runCycles_cons (s : List Nat) (input : PollInput) (rest : List PollInput) :
    runCycles s (input :: rest) =
      ((runCycles (processPN532 s input).1 rest).1,
        (processPN532 s input).2.toList ++ (runCycles (processPN532 s input).1 rest).2) := rfl

/-- A run of identical reads that all compare equal to the stored buffer
    changes nothing and publishes nothing. -/
lemma runCycles_suppress (s uid : List Nat) (h : uid = s.take uid.length) :
    ∀ n, runCycles s (List.replicate n (PollInput.tag uid)) = (s, []) := by
  intro n
  induction n with
  | zero => rfl
  | succ m ih =>
      rw [List.replicate_succ, runCycles_cons, processPN532_tag_same s uid h, ih]
      rfl

/-- A non-all-zero UID never compares equal to the cleared buffer. -/
lemma zero_buffer_ne (uid : List Nat) (h8 : uid.length ≤ MAX_UID_BYTES)
    (hnz : ∃ b ∈ uid, b ≠ 0) :
    uid ≠ (List.replicate MAX_UID_BYTES 0).take uid.length := by
  intro contra
  obtain ⟨b, hb, hbne⟩ := hnz
  rw [List.take_replicate, Nat.min_eq_left h8] at contra
  exact hbne ((List.eq_replicate_iff.mp contra).2 b hb)

/-- From the cleared (Idle) state, `n ≥ 1` consecutive reads of the same
    non-all-zero UID publish exactly once, on the first read. -/
lemma runCycles_from_idle (uid : List Nat) (n : Nat) (hn : 1 ≤ n)
    (h8 : uid.length ≤ MAX_UID_BYTES) (hnz : ∃ b ∈ uid, b ≠ 0) :
    (runCycles (List.replicate MAX_UID_BYTES 0)
      (List.replicate n (PollInput.tag uid))).2 = [uid] := by
  obtain ⟨m, rfl⟩ : ∃ m, n = m + 1 := ⟨n - 1, by omega⟩
  rw [List.replicate_succ, runCycles_cons,
      processPN532_tag_new _ _ (zero_buffer_ne uid h8 hnz)]
  rw [runCycles_suppress _ uid (List.take_left uid _).symm m]
  rfl

/-! ### Claim C1 -/

/-- C1, counterexample: after the 7-byte UID `01..07` is stored, a 4-byte tag
    whose UID is a strict prefix of it is treated as identical — the
    comparison runs only over the new reader-reported length — and publishes
    nothing, so only the first tag's report is emitted.  The claim states the
    shorter tag is always treated as distinct and emit-eligible. -/
theorem C1_counterexample :
    (runCycles (List.replicate MAX_UID_BYTES 0)
      [PollInput.tag [1, 2, 3, 4, 5, 6, 7], PollInput.tag [1, 2, 3, 4]]).2
      = [[1, 2, 3, 4, 5, 6, 7]] := by
  decide

/-- C1, amended: a newly read tag is treated as distinct (emit-eligible) iff
    some byte among the first `uid.length` bytes — the *new* reader-reported
    length — differs between the new UID and the stored buffer; in
    particular a shorter UID that matches the stored buffer byte-for-byte
    over its own length is treated as the same tag, and a longer UID is
    distinct only when it differs from the stored buffer (zero-filled beyond
    the previously stored UID) somewhere within its length. -/
theorem C1_processPN532 (lastUid uid : List Nat)
    (h8 : lastUid.length = MAX_UID_BYTES) (hu8 : uid.length ≤ MAX_UID_BYTES) :
    (processPN532 lastUid (PollInput.tag uid)).2 ≠ none ↔
      ∃ i, i < uid.length ∧ uid.getD i 0 ≠ lastUid.getD i 0 := by
  have hlen : (lastUid.take uid.length).length = uid.length := by
    rw [List.length_take]
    omega
  by_cases hsame : uid = lastUid.take uid.length
  · rw [processPN532_tag_same lastUid uid hsame]
    simp only [ne_eq, not_true_eq_false, false_iff, not_exists, not_and, not_not]
    intro i hi
    rw [hsame]
    have hi' : i < lastUid.length := by omega
    rw [List.getD_eq_getElem _ _ (by omega : i < (lastUid.take uid.length).length),
        List.getD_eq_getElem _ _ hi', List.getElem_take]
  · rw [processPN532_tag_new lastUid uid hsame]
    simp only [ne_eq, reduceCtorEq, not_false_eq_true, true_iff]
    by_contra hno
    push_neg at hno
    apply hsame
    apply List.ext_getElem hlen.symm
    intro i h1 h2
    have hi' : i < lastUid.length := by omega
    have hval := hno i h1
    rw [List.getD_eq_getElem uid 0 h1, List.getD_eq_getElem _ _ hi'] at hval
    rw [List.getElem_take]
    exact hval

/-- Witness for C1: with `05 06` stored, the tag `05 07` differs in its
    second byte and is emit-eligible. -/
theorem C1_processPN532_witness :
    (processPN532 [5, 6, 0, 0, 0, 0, 0, 0] (PollInput.tag [5, 7])).2 ≠ none ↔
      ∃ i, i < ([5, 7] : List Nat).length ∧
        ([5, 7] : List Nat).getD i 0 ≠ ([5, 6, 0, 0, 0, 0, 0, 0] : List Nat).getD i 0 :=
  C1_processPN532 [5, 6, 0, 0, 0, 0, 0, 0] [5, 7] (by decide) (by decide)

/-! ### Claim C2 -/

/-- C2, counterexample: the run of two consecutive identical identifiers
    `0A 14 1E 28` is preceded by the differing identifier `0A 14 1E 28 32`;
    the claim demands exactly one report for the identical run, but because
    the new UID matches the stored buffer over its own (shorter) length,
    zero reports are published for it — only the first tag is reported. -/
theorem C2_counterexample :
    (runCycles (List.replicate MAX_UID_BYTES 0)
      [PollInput.tag [10, 20, 30, 40, 50], PollInput.tag [10, 20, 30, 40],
       PollInput.tag [10, 20, 30, 40]]).2 = [[10, 20, 30, 40, 50]] := by
  decide

/-- C2, amended: starting from the cleared (Idle) state — i.e. after a
    no-tag cycle or at process start — presenting the same non-all-zero
    identifier on `n ≥ 1` consecutive cycles publishes exactly one report,
    on the first cycle; when the identical run is instead preceded by a
    differing identifier the first detection can be suppressed (the
    stored-buffer comparison runs only over the new length), so the
    exactly-once guarantee holds only from Idle. -/
theorem C2_runCycles (uid : List Nat) (n : Nat) (hn : 1 ≤ n)
    (h8 : uid.length ≤ MAX_UID_BYTES) (hnz : ∃ b ∈ uid, b ≠ 0) :
    (runCycles (List.replicate MAX_UID_BYTES 0)
      (List.replicate n (PollInput.tag uid))).2 = [uid] :=
  runCycles_from_idle uid n hn h8 hnz

/-- Witness for C2: three consecutive reads of `04 A2 5C 7B` from Idle
    publish exactly once. -/
theorem C2_runCycles_witness :
    (runCycles (List.replicate MAX_UID_BYTES 0)
      (List.replicate 3 (PollInput.tag [0x04, 0xA2, 0x5C, 0x7B]))).2
      = [[0x04, 0xA2, 0x5C, 0x7B]] :=
  C2_runCycles [0x04, 0xA2, 0x5C, 0x7B] 3 (by decide) (by decide) (by decide)

/-! ### Claim C5 -/

/-- C5: a no-tag cycle, from any prior dedup state, clears the stored
    identifier to the all-zero sentinel and publishes nothing; consequently,
    from any prior state, removing a tag for one cycle and then re-presenting
    the same (non-all-zero, reader-length ≤ 8) UID for any `n ≥ 1` cycles
    yields exactly one new report. -/
theorem C5_processPN532 :
    (∀ s, processPN532 s PollInput.noTag = (List.replicate MAX_UID_BYTES 0, none)) ∧
    (∀ s uid n, 1 ≤ n → uid.length ≤ MAX_UID_BYTES → (∃ b ∈ uid, b ≠ 0) →
      (runCycles s (PollInput.noTag :: List.replicate n (PollInput.tag uid))).2
        = [uid]) := by
  refine ⟨fun s => rfl, fun s uid n hn h8 hnz => ?_⟩
  rw [runCycles_cons, processPN532_noTag]
  simp only [Option.toList_none, List.nil_append]
  exact runCycles_from_idle uid n hn h8 hnz

/-- Witness for C5: with the tag `03 01 04 01` still stored, a no-tag cycle
    then two reads of the same UID publish exactly one new report. -/
theorem C5_processPN532_witness :
    processPN532 [3, 1, 4, 1, 0, 0, 0, 0] PollInput.noTag
      = (List.replicate MAX_UID_BYTES 0, none) ∧
    (runCycles [3, 1, 4, 1, 0, 0, 0, 0]
      (PollInput.noTag :: List.replicate 2 (PollInput.tag [3, 1, 4, 1]))).2
      = [[3, 1, 4, 1]] :=
  ⟨C5_processPN532.1 [3, 1, 4, 1, 0, 0, 0, 0],
   C5_processPN532.2 [3, 1, 4, 1, 0, 0, 0, 0] [3, 1, 4, 1] 2
     (by decide) (by decide) (by decide)⟩

/-! ### Claim C10 -/

/-- C10: when a poll cycle accepts (publishes) a new tag whose
    reader-reported UID has length `L ≤ 8`, only the first `L` bytes of the
    stored buffer are overwritten with the new UID; the bytes at indices `L`
    through 7 keep their previous values — stale bytes of a longer earlier
    UID persist until a no-tag cycle zeroes the whole buffer — and the buffer
    keeps length 8. -/
theorem C10_processPN532 (lastUid uid : List Nat)
    (h8 : lastUid.length = MAX_UID_BYTES) (hu8 : uid.length ≤ MAX_UID_BYTES)
    (hacc : (processPN532 lastUid (PollInput.tag uid)).2 ≠ none) :
    (processPN532 lastUid (PollInput.tag uid)).1.length = MAX_UID_BYTES ∧
    (∀ i, i < uid.length →
      (processPN532 lastUid (PollInput.tag uid)).1.getD i 0 = uid.getD i 0) ∧
    (∀ i, uid.length ≤ i → i < MAX_UID_BYTES →
      (processPN532 lastUid (PollInput.tag uid)).1.getD i 0 = lastUid.getD i 0) := by
  have hne : uid ≠ lastUid.take uid.length := by
    intro contra
    rw [processPN532_tag_same lastUid uid contra] at hacc
    exact hacc rfl
  rw [processPN532_tag_new lastUid uid hne]
  have hdrop : (lastUid.drop uid.length).length = MAX_UID_BYTES - uid.length := by
    rw [List.length_drop, h8]
  refine ⟨?_, ?_, ?_⟩
  · simp only [List.length_append, hdrop]
    omega
  · intro i hi
    have h1 : i < (uid ++ lastUid.drop uid.length).length := by
      simp only [List.length_append]
      omega
    rw [List.getD_eq_getElem _ _ h1, List.getD_eq_getElem _ _ hi,
        List.getElem_append_left hi]
  · intro i hlo hhi
    have h1 : i < (uid ++ lastUid.drop uid.length).length := by
      simp only [List.length_append, hdrop]
      omega
    have h2 : i < lastUid.length := by omega
    have h3 : i - uid.length < (lastUid.drop uid.length).length := by
      rw [hdrop]; omega
    rw [List.getD_eq_getElem _ _ h1, List.getD_eq_getElem _ _ h2,
        List.getElem_append_right hlo, List.getElem_drop]
    congr 1
    omega

/-- Witness for C10: accepting the 2-byte tag `09 09` over the stored 8-byte
    UID `01..08` rewrites only the first two bytes. -/
theorem C10_processPN532_witness :
    (processPN532 [1, 2, 3, 4, 5, 6, 7, 8] (PollInput.tag [9, 9])).1.length
      = MAX_UID_BYTES ∧
    (∀ i, i < ([9, 9] : List Nat).length →
      (processPN532 [1, 2, 3, 4, 5, 6, 7, 8] (PollInput.tag [9, 9])).1.getD i 0
        = ([9, 9] : List Nat).getD i 0) ∧
    (∀ i, ([9, 9] : List Nat).length ≤ i → i < MAX_UID_BYTES →
      (processPN532 [1, 2, 3, 4, 5, 6, 7, 8] (PollInput.tag [9, 9])).1.getD i 0
        = ([1, 2, 3, 4, 5, 6, 7, 8] : List Nat).getD i 0) :=
  C10_processPN532 [1, 2, 3, 4, 5, 6, 7, 8] [9, 9]
    (by decide) (by decide) (by decide)

/-! ### Claim C6 -/

/-- C6: the claim says an out-of-range poll interval (outside [0, 60000] ms)
    is rejected and the prior value retained, matching the firmware's own
    config schema ("minimum" 0, "maximum" 60000, "Must be a number between 0
    and 60000").  The handler performs no range check: with prior value 200,
    the out-of-range update 70000 is stored (not rejected), while an
    in-range update 500 is also stored.  This exhibits the code bug at the
    failing input 70000. -/
theorem C6_jsonConfig :
    jsonConfig 200 (some 70000) = 70000 ∧
    jsonConfig 200 (some 70000) ≠ 200 ∧
    60000 < 70000 ∧
    jsonConfig 200 (some 500) = 500 := by
  decide

/-! ### Claim C9 -/

/-- C9: `readData_MIFARE_UL` on the caller's 64-byte array returns a count
    that is one of 0, 16, 32, 48 (a multiple of 16, at most 48), keeps the
    array's length at 64, and leaves every byte at index ≥ count unchanged —
    so the 64-byte buffer is never written out of bounds and only the first
    count bytes are written. -/
theorem C9_readData (readPage : Nat → Option (List Nat)) (data : List Nat)
    (h64 : data.length = 64)
    (hr : ∀ p b, readPage p = some b → b.length = 18) :
    ((readData_MIFARE_UL readPage data).2.1 = 0 ∨
      (readData_MIFARE_UL readPage data).2.1 = 16 ∨
      (readData_MIFARE_UL readPage data).2.1 = 32 ∨
      (readData_MIFARE_UL readPage data).2.1 = 48) ∧
    (readData_MIFARE_UL readPage data).2.1 ≤ 48 ∧
    (readData_MIFARE_UL readPage data).1.length = 64 ∧
    (∀ i, (readData_MIFARE_UL readPage data).2.1 ≤ i →
      (readData_MIFARE_UL readPage data).1.getD i 0 = data.getD i 0) := by
  obtain ⟨hc, hlen, hframe, hcontent, hlog, hvals⟩ :=
    readData_spec readPage data (readData_MIFARE_UL readPage data).1
      (readData_MIFARE_UL readPage data).2.1
      (readData_MIFARE_UL readPage data).2.2 h64 hr rfl
  exact ⟨hvals, by omega, hlen, hframe⟩

/-- Witness for C9: all three page reads succeed with 18-byte driver
    buffers; the count is 48 and the tail of the array is untouched. -/
theorem C9_readData_witness :
    ((readData_MIFARE_UL (fun _ => some (List.replicate 18 7))
        (List.replicate 64 0)).2.1 = 0 ∨
      (readData_MIFARE_UL (fun _ => some (List.replicate 18 7))
        (List.replicate 64 0)).2.1 = 16 ∨
      (readData_MIFARE_UL (fun _ => some (List.replicate 18 7))
        (List.replicate 64 0)).2.1 = 32 ∨
      (readData_MIFARE_UL (fun _ => some (List.replicate 18 7))
        (List.replicate 64 0)).2.1 = 48) ∧
    (readData_MIFARE_UL (fun _ => some (List.replicate 18 7))
      (List.replicate 64 0)).2.1 ≤ 48 ∧
    (readData_MIFARE_UL (fun _ => some (List.replicate 18 7))
      (List.replicate 64 0)).1.length = 64 ∧
    (∀ i, (readData_MIFARE_UL (fun _ => some (List.replicate 18 7))
        (List.replicate 64 0)).2.1 ≤ i →
      (readData_MIFARE_UL (fun _ => some (List.replicate 18 7))
        (List.replicate 64 0)).1.getD i 0
        = (List.replicate 64 0).getD i 0) :=
  C9_readData (fun _ => some (List.replicate 18 7)) (List.replicate 64 0)
    (by simp)
    (fun p b h => by
      rw [← Option.some.inj h, List.length_replicate])

/-! ### Claim C7 -/

/-- C7: when the tag type is MIFARE Ultralight and one of the attempted
    block reads fails, the decoded data is truncated to the successfully
    read blocks (`ulDecodedBytes`), the diagnostic is logged, and the status
    record is still produced with the already-decoded identifier and tag
    type (and the data field holding the hex of the truncated bytes). -/
theorem C7_publishCard (getType : Nat → PiccType)
    (getTypeName : PiccType → List Char) (readPage : Nat → Option (List Nat))
    (stack : List Nat) (uid : MfrcUid)
    (h64 : stack.length = 64)
    (hr : ∀ p b, readPage p = some b → b.length = 18)
    (hUL : getType uid.sak = PiccType.PICC_TYPE_MIFARE_UL)
    (hfail : ulReadFails readPage) :
    (readData_MIFARE_UL readPage stack).1.take
        (readData_MIFARE_UL readPage stack).2.1 = ulDecodedBytes readPage ∧
    (publishCard getType getTypeName readPage stack uid).2
      = [mifareReadFailedMsg] ∧
    ("uid", JVal.str (toHexString (uid.uidByte.take uid.size)))
      ∈ (publishCard getType getTypeName readPage stack uid).1 ∧
    ("type", JVal.str (getTypeName (getType uid.sak)))
      ∈ (publishCard getType getTypeName readPage stack uid).1 ∧
    ("data", JVal.str (toHexString (ulDecodedBytes readPage)))
      ∈ (publishCard getType getTypeName readPage stack uid).1 := by
  have htake := readData_take readPage stack h64 hr
  obtain ⟨hc, hlen, hframe, hcontent, hlog, hvals⟩ :=
    readData_spec readPage stack (readData_MIFARE_UL readPage stack).1
      (readData_MIFARE_UL readPage stack).2.1
      (readData_MIFARE_UL readPage stack).2.2 h64 hr rfl
  refine ⟨htake, ?_, ?_, ?_, ?_⟩
  · simp only [publishCard, hUL, if_pos]
    rw [hlog, if_pos hfail]
  · simp [publishCard, hUL]
  · simp [publishCard, hUL]
  · rw [← htake]
    simp [publishCard, hUL]

/-- Witness for C7: page 4 succeeds, page 8 fails; the record still carries
    uid and type, the data field is the hex of the first block, and the
    diagnostic is logged. -/
theorem C7_publishCard_witness :
    (readData_MIFARE_UL
        (fun p => if p = 4 then some (List.replicate 18 5) else none)
        (List.replicate 64 0)).1.take
      (readData_MIFARE_UL
        (fun p => if p = 4 then some (List.replicate 18 5) else none)
        (List.replicate 64 0)).2.1
      = ulDecodedBytes (fun p => if p = 4 then some (List.replicate 18 5) else none) ∧
    (publishCard (fun _ => PiccType.PICC_TYPE_MIFARE_UL) (fun _ => [])
        (fun p => if p = 4 then some (List.replicate 18 5) else none)
        (List.replicate 64 0) ⟨4, [0xDE, 0xAD, 0xBE, 0xEF], 0⟩).2
      = [mifareReadFailedMsg] ∧
    ("uid", JVal.str (toHexString
        ((⟨4, [0xDE, 0xAD, 0xBE, 0xEF], 0⟩ : MfrcUid).uidByte.take
          (⟨4, [0xDE, 0xAD, 0xBE, 0xEF], 0⟩ : MfrcUid).size)))
      ∈ (publishCard (fun _ => PiccType.PICC_TYPE_MIFARE_UL) (fun _ => [])
          (fun p => if p = 4 then some (List.replicate 18 5) else none)
          (List.replicate 64 0) ⟨4, [0xDE, 0xAD, 0xBE, 0xEF], 0⟩).1 ∧
    ("type", JVal.str ((fun _ => ([] : List Char))
        ((fun _ => PiccType.PICC_TYPE_MIFARE_UL)
          (⟨4, [0xDE, 0xAD, 0xBE, 0xEF], 0⟩ : MfrcUid).sak)))
      ∈ (publishCard (fun _ => PiccType.PICC_TYPE_MIFARE_UL) (fun _ => [])
          (fun p => if p = 4 then some (List.replicate 18 5) else none)
          (List.replicate 64 0) ⟨4, [0xDE, 0xAD, 0xBE, 0xEF], 0⟩).1 ∧
    ("data", JVal.str (toHexString
        (ulDecodedBytes (fun p => if p = 4 then some (List.replicate 18 5) else none))))
      ∈ (publishCard (fun _ => PiccType.PICC_TYPE_MIFARE_UL) (fun _ => [])
          (fun p => if p = 4 then some (List.replicate 18 5) else none)
          (List.replicate 64 0) ⟨4, [0xDE, 0xAD, 0xBE, 0xEF], 0⟩).1 :=
  C7_publishCard (fun _ => PiccType.PICC_TYPE_MIFARE_UL) (fun _ => [])
    (fun p => if p = 4 then some (List.replicate 18 5) else none)
    (List.replicate 64 0) ⟨4, [0xDE, 0xAD, 0xBE, 0xEF], 0⟩
    (by simp)
    (fun p b h => by
      dsimp only at h
      by_cases hp : p = 4
      · rw [if_pos hp] at h
        rw [← Option.some.inj h, List.length_replicate]
      · rw [if_neg hp] at h
        exact absurd h (by simp))
    rfl
    (Or.inr (Or.inl (by decide)))

/-! ### Claim C8 -/

/-- C8, counterexample: for a tag type that does not support the secondary
    data read (here MIFARE 1K), the produced record does NOT omit the
    "data" field — it carries it with the empty hex string. -/
theorem C8_counterexample :
    ("data", JVal.str [])
      ∈ (publishCard (fun _ => PiccType.PICC_TYPE_MIFARE_1K) (fun _ => [])
          (fun _ => none) (List.replicate 64 0)
          ⟨4, [0xDE, 0xAD, 0xBE, 0xEF], 8⟩).1 := by
  decide

/-- C8, amended: the status record always carries the "data" field: for tag
    types other than MIFARE Ultralight no read is attempted (no error, no
    diagnostic) and the field holds the empty hex string, while for MIFARE
    Ultralight it holds the hex encoding of the (possibly truncated) bytes
    read from the secondary blocks. -/
theorem C8_publishCard (getType : Nat → PiccType)
    (getTypeName : PiccType → List Char) (readPage : Nat → Option (List Nat))
    (stack : List Nat) (uid : MfrcUid) :
    (getType uid.sak ≠ PiccType.PICC_TYPE_MIFARE_UL →
      ("data", JVal.str [])
        ∈ (publishCard getType getTypeName readPage stack uid).1 ∧
      (publishCard getType getTypeName readPage stack uid).2 = []) ∧
    (getType uid.sak = PiccType.PICC_TYPE_MIFARE_UL →
      ("data", JVal.str (toHexString
          ((readData_MIFARE_UL readPage stack).1.take
            (readData_MIFARE_UL readPage stack).2.1)))
        ∈ (publishCard getType getTypeName readPage stack uid).1) := by
  constructor
  · intro hne
    constructor
    · simp only [publishCard, if_neg hne]
      simp [toHexString]
    · simp only [publishCard, if_neg hne]
  · intro hUL
    simp [publishCard, hUL]

/-- Witness for C8: a MIFARE 1K tag yields a record with an empty "data"
    string and no diagnostics; a MIFARE Ultralight tag yields the hex of the
    read bytes. -/
theorem C8_publishCard_witness :
    (("data", JVal.str [])
        ∈ (publishCard (fun _ => PiccType.PICC_TYPE_MIFARE_1K) (fun _ => [])
            (fun _ => none) (List.replicate 64 0)
            ⟨4, [1, 2, 3, 4], 8⟩).1 ∧
      (publishCard (fun _ => PiccType.PICC_TYPE_MIFARE_1K) (fun _ => [])
          (fun _ => none) (List.replicate 64 0) ⟨4, [1, 2, 3, 4], 8⟩).2 = []) ∧
    ("data", JVal.str (toHexString
        ((readData_MIFARE_UL (fun _ => none) (List.replicate 64 0)).1.take
          (readData_MIFARE_UL (fun _ => none) (List.replicate 64 0)).2.1)))
      ∈ (publishCard (fun _ => PiccType.PICC_TYPE_MIFARE_UL) (fun _ => [])
          (fun _ => none) (List.replicate 64 0) ⟨4, [1, 2, 3, 4], 8⟩).1 :=
  ⟨(C8_publishCard (fun _ => PiccType.PICC_TYPE_MIFARE_1K) (fun _ => [])
      (fun _ => none) (List.replicate 64 0) ⟨4, [1, 2, 3, 4], 8⟩).1 (by decide),
   (C8_publishCard (fun _ => PiccType.PICC_TYPE_MIFARE_UL) (fun _ => [])
      (fun _ => none) (List.replicate 64 0) ⟨4, [1, 2, 3, 4], 8⟩).2 rfl⟩

end OXRSRfid
